import Mathlib

/-!
Verification of the scene-intersection and recursive-shading core of a
ray tracer written in Rust.  The `f64` arithmetic of the source is modelled
by the real numbers; fallible operations (`Option` in Rust, `unwrap`
panics) are modelled by `Option`.
-/

namespace RTC

noncomputable section

/-- Comparison tolerance of the source (`approx_eq.rs`: `EPSILON = 0.00001`). -/
def EPSILON : ℝ := 1 / 100000

/-- 3-component vector (`vector.rs`), `f64` components modelled as reals. -/
structure Vector where
  x : ℝ
  y : ℝ
  z : ℝ

/-- 3-component point (`point.rs`). -/
structure Point where
  x : ℝ
  y : ℝ
  z : ℝ

/-- RGB color (`color.rs`). -/
structure Color where
  red : ℝ
  green : ℝ
  blue : ℝ

def BLACK : Color := ⟨0, 0, 0⟩

def WHITE : Color := ⟨1, 1, 1⟩

instance : Neg Vector := ⟨fun v => ⟨-v.x, -v.y, -v.z⟩⟩

instance : Sub Vector := ⟨fun a b => ⟨a.x - b.x, a.y - b.y, a.z - b.z⟩⟩

/-- `impl Mul<f64> for &Vector` (componentwise scale). -/
instance : HMul Vector ℝ Vector := ⟨fun v s => ⟨v.x * s, v.y * s, v.z * s⟩⟩

/-- `impl Mul<&Vector> for f64`. -/
instance : HMul ℝ Vector Vector := ⟨fun s v => v * s⟩

/-- `impl Div<f64> for &Vector`. -/
instance : HDiv Vector ℝ Vector := ⟨fun v s => ⟨v.x / s, v.y / s, v.z / s⟩⟩

def Vector.dot (a b : Vector) : ℝ := a.x * b.x + a.y * b.y + a.z * b.z

noncomputable def Vector.magnitude (v : Vector) : ℝ := Real.sqrt (v.dot v)

noncomputable def Vector.normalize (v : Vector) : Vector := v / v.magnitude

/-- `vector.rs`: `reflect(incoming, normal)`. -/
def reflect (incoming normal : Vector) : Vector :=
  incoming - 2 * incoming.dot normal * normal

/-- `impl Add<&Vector> for Point`. -/
instance : HAdd Point Vector Point := ⟨fun p v => ⟨p.x + v.x, p.y + v.y, p.z + v.z⟩⟩

/-- `impl Sub<&Vector> for Point`. -/
instance : HSub Point Vector Point := ⟨fun p v => ⟨p.x - v.x, p.y - v.y, p.z - v.z⟩⟩

/-- `impl Sub<&Point> for &Point` (difference of points is a vector). -/
instance : HSub Point Point Vector := ⟨fun a b => ⟨a.x - b.x, a.y - b.y, a.z - b.z⟩⟩

instance : Add Color := ⟨fun a b => ⟨a.red + b.red, a.green + b.green, a.blue + b.blue⟩⟩

/-- `impl Mul<f64> for Color`. -/
instance : HMul Color ℝ Color := ⟨fun c s => ⟨c.red * s, c.green * s, c.blue * s⟩⟩

/-- `impl Mul<&Color> for Color` (componentwise). -/
instance : Mul Color := ⟨fun a b => ⟨a.red * b.red, a.green * b.green, a.blue * b.blue⟩⟩

/-- A ray (`ray.rs`): origin point and direction vector. -/
structure Ray where
  origin : Point
  direction : Vector

def Ray.position (r : Ray) (t : ℝ) : Point := r.origin + r.direction * t

/-! ## `intersection.rs` -/

/-- `Intersection`: a ray parameter together with the id of the hit shape. -/
structure Intersection where
  t : ℝ
  object_id : ℕ

/-- `Intersections`: the container holding a vector of intersections. -/
structure Intersections where
  intersections : List Intersection

/-- `Intersections::new()` starts from an empty vector. -/
def Intersections.new : Intersections := ⟨[]⟩

/-- `Intersections::add` pushes the new entry at the end of the stored vector. -/
def Intersections.add (s : Intersections) (i : Intersection) : Intersections :=
  ⟨s.intersections ++ [i]⟩

/-- The closure folded by `Intersections::hit`: keep the accumulator when it
already holds a strictly smaller `t`, otherwise replace it by the current
entry (`Some(best) if i.t > best.t => acc, _ => Some(i)`). -/
def Intersections.hitFold (acc : Option Intersection) (i : Intersection) :
    Option Intersection :=
  match acc with
  | some best => if best.t < i.t then some best else some i
  | none => some i

/-- `Intersections::hit`: filter the entries with `t >= 0`, then fold. -/
noncomputable def Intersections.hit (s : Intersections) : Option Intersection :=
  (s.intersections.filter (fun i => decide (0 ≤ i.t))).foldl Intersections.hitFold none

/-- The stored sequence is ascending by `t` (the sortedness property the
specification asserts of the container). -/
def Intersections.sortedByT (s : Intersections) : Prop :=
  s.intersections.Chain' (fun a b => a.t ≤ b.t)

lemma hitFold_some (l : List Intersection) (b : Intersection) :
    ∃ j, l.foldl Intersections.hitFold (some b) = some j ∧ (j = b ∨ j ∈ l) ∧
      j.t ≤ b.t ∧ ∀ i ∈ l, j.t ≤ i.t := by
  induction l generalizing b with
  | nil => exact ⟨b, rfl, Or.inl rfl, le_refl _, by simp⟩
  | cons i l ih =>
    by_cases h : b.t < i.t
    · obtain ⟨j, hj, hmem, hle, hall⟩ := ih b
      refine ⟨j, ?_, ?_, hle, ?_⟩
      · simpa [List.foldl_cons, Intersections.hitFold, if_pos h] using hj
      · rcases hmem with h1 | h1
        · exact Or.inl h1
        · exact Or.inr (List.mem_cons_of_mem _ h1)
      · intro x hx
        rcases List.mem_cons.mp hx with rfl | hx'
        · exact le_of_lt (lt_of_le_of_lt hle h)
        · exact hall x hx'
    · obtain ⟨j, hj, hmem, hle, hall⟩ := ih i
      refine ⟨j, ?_, ?_, le_trans hle (not_lt.mp h), ?_⟩
      · simpa [List.foldl_cons, Intersections.hitFold, if_neg h] using hj
      · rcases hmem with h1 | h1
        · exact Or.inr (h1 ▸ List.mem_cons_self _ _)
        · exact Or.inr (List.mem_cons_of_mem _ h1)
      · intro x hx
        rcases List.mem_cons.mp hx with rfl | hx'
        · exact hle
        · exact hall x hx'

/-- C1: if at least one intersection has `t ≥ 0` then `Intersections::hit()`
returns an intersection whose `t` is the minimum over all non-negative
t-values of the collection; if every intersection has `t < 0` (in particular
if the collection is empty) it returns none. -/
theorem hit_min_nonneg (s : Intersections) :
    ((∃ i ∈ s.intersections, 0 ≤ i.t) →
      ∃ j, s.hit = some j ∧ j ∈ s.intersections ∧ 0 ≤ j.t ∧
        ∀ i ∈ s.intersections, 0 ≤ i.t → j.t ≤ i.t) ∧
    ((∀ i ∈ s.intersections, i.t < 0) → s.hit = none) := by
  constructor
  · rintro ⟨i0, hi0, hi0t⟩
    have hmem : i0 ∈ s.intersections.filter (fun i => decide (0 ≤ i.t)) := by
      simp only [List.mem_filter, decide_eq_true_eq]
      exact ⟨hi0, hi0t⟩
    obtain ⟨x, rest, hxr⟩ := List.exists_cons_of_ne_nil (List.ne_nil_of_mem hmem)
    have hx : x ∈ s.intersections.filter (fun i => decide (0 ≤ i.t)) := by
      rw [hxr]; exact List.mem_cons_self _ _
    obtain ⟨j, hj, hjmem, hjle, hjall⟩ := hitFold_some rest x
    have hjfil : j ∈ s.intersections.filter (fun i => decide (0 ≤ i.t)) := by
      rcases hjmem with rfl | h1
      · exact hx
      · rw [hxr]; exact List.mem_cons_of_mem _ h1
    have hjprop := List.mem_filter.mp hjfil
    refine ⟨j, ?_, hjprop.1, by simpa using hjprop.2, ?_⟩
    · unfold Intersections.hit
      rw [hxr, List.foldl_cons]
      simpa [Intersections.hitFold] using hj
    · intro i hi hit0
      have hifil : i ∈ s.intersections.filter (fun i => decide (0 ≤ i.t)) := by
        simp only [List.mem_filter, decide_eq_true_eq]
        exact ⟨hi, hit0⟩
      rw [hxr] at hifil
      rcases List.mem_cons.mp hifil with rfl | h1
      · exact hjle
      · exact hjall i h1
  · intro hall
    have hfil : s.intersections.filter (fun i => decide (0 ≤ i.t)) = [] := by
      rw [List.filter_eq_nil_iff]
      intro i hi
      simp only [decide_eq_true_eq]
      exact not_le.mpr (hall i hi)
    unfold Intersections.hit
    rw [hfil]
    rfl

/-- Concrete collection with t-values `[5, 7, -3, 2]` from the specification. -/
noncomputable def sampleXs : Intersections :=
  ((((Intersections.new.add ⟨5, 0⟩).add ⟨7, 0⟩).add ⟨-3, 0⟩).add ⟨2, 0⟩)

theorem hit_min_nonneg_witness :
    (∃ i ∈ sampleXs.intersections, 0 ≤ i.t) ∧
    (∃ j, sampleXs.hit = some j ∧ j ∈ sampleXs.intersections ∧ 0 ≤ j.t ∧
      ∀ i ∈ sampleXs.intersections, 0 ≤ i.t → j.t ≤ i.t) ∧
    sampleXs.hit = some ⟨2, 0⟩ := by
  have hex : ∃ i ∈ sampleXs.intersections, 0 ≤ i.t := by
    refine ⟨⟨5, 0⟩, ?_, by norm_num⟩
    simp [sampleXs, Intersections.new, Intersections.add]
  refine ⟨hex, (hit_min_nonneg sampleXs).1 hex, ?_⟩
  norm_num [sampleXs, Intersections.hit, Intersections.new, Intersections.add,
    Intersections.hitFold]

/-- C5 counterexample: adding t-values `2` then `1` leaves the stored list
`[2, 1]`, which is not ascending by `t` — the container does not sort. -/
theorem intersections_not_sorted_cex :
    ¬ ((Intersections.new.add ⟨2, 0⟩).add ⟨1, 0⟩).sortedByT := by
  simp only [Intersections.sortedByT, Intersections.new, Intersections.add]
  intro h
  simp only [List.nil_append, List.singleton_append, List.chain'_cons,
    List.chain'_singleton, and_true] at h
  norm_num at h

/-- C5 (amended): the container stores intersections exactly in insertion
order — `add` appends at the end and construction performs no sorting, so
the stored list is ascending by `t` only when the insertions already were. -/
theorem intersections_insertion_order (l : List Intersection) :
    (l.foldl Intersections.add Intersections.new).intersections = l := by
  suffices h : ∀ acc : Intersections, (l.foldl Intersections.add acc).intersections
      = acc.intersections ++ l by
    simpa [Intersections.new] using h Intersections.new
  induction l with
  | nil => intro acc; simp
  | cons i l ih =>
    intro acc
    simp [List.foldl_cons, ih, Intersections.add]

/-! ## `world.rs`: the refractive-index walk of `prepare_computations` -/

/-- One container update of `World::prepare_computations` (`world.rs`): if the
shape id is already present, remove it at its first position, else push it. -/
def containersStep (containers : List ℕ) (oid : ℕ) : List ℕ :=
  match containers.findIdx? (fun c => c == oid) with
  | some p => containers.eraseIdx p
  | none => containers ++ [oid]

/-- The refractive-index computation of `World::prepare_computations`
(`world.rs` lines 96–121): walk the intersection list keeping a stack of
open containers; at the target intersection read `n1` from the stack top
before the update and `n2` from the top after it, then break.  The loop
index reaching the target is modelled by counting the target down.
`refr oid` models `self.shapes[oid].get_material().get_refractive_index()`
(accessor modelled from the spec: it reads the material's refractive index). -/
def prepareN1N2 (refr : ℕ → ℝ) : List Intersection → ℕ → List ℕ → ℝ × ℝ
  | [], _, _ => (1, 1)
  | i :: rest, target, containers =>
    match target with
    | 0 =>
      let n1 := match containers.getLast? with
        | some oid => refr oid
        | none => 1
      let containers2 := containersStep containers i.object_id
      let n2 := match containers2.getLast? with
        | some oid => refr oid
        | none => 1
      (n1, n2)
    | k + 1 => prepareN1N2 refr rest k (containersStep containers i.object_id)

/-- Spec-side description: the container stack obtained by pushing/removing
the shape ids of the first `k` intersections, starting from an empty stack. -/
def stackAt (xs : List Intersection) (k : ℕ) : List ℕ :=
  (xs.take k).foldl (fun cs i => containersStep cs i.object_id) []

/-- Spec-side description: the refractive index of the shape on top of the
stack, or vacuum `1.0` for an empty stack. -/
def topRefr (refr : ℕ → ℝ) (cs : List ℕ) : ℝ :=
  match cs.getLast? with
  | some oid => refr oid
  | none => 1

lemma prepareN1N2_general (refr : ℕ → ℝ) (xs : List Intersection) :
    ∀ (target : ℕ) (cs : List ℕ), target < xs.length →
      prepareN1N2 refr xs target cs =
        (topRefr refr ((xs.take target).foldl (fun a i => containersStep a i.object_id) cs),
         topRefr refr ((xs.take (target + 1)).foldl (fun a i => containersStep a i.object_id) cs)) := by
  induction xs with
  | nil => intro target cs h; simp at h
  | cons i rest ih =>
    intro target cs h
    match target with
    | 0 =>
      simp only [prepareN1N2, List.take_zero, List.foldl_nil, List.take_succ_cons,
        List.foldl_cons, topRefr]
    | Nat.succ k =>
      have hk : k < rest.length := by
        simpa [Nat.succ_lt_succ_iff] using h
      simp only [prepareN1N2, List.take_succ_cons, List.foldl_cons]
      exact ih k (containersStep cs i.object_id) hk

/-- C2: for every intersection list and every in-range target index, the
`n1`/`n2` pair computed by `prepare_computations` is described by the
container-stack walk: `n1` is the refractive index of the shape on top of
the stack built from the intersections strictly before the target (vacuum
`1.0` if empty), and `n2` is the top after also processing the target. -/
theorem prepare_n1n2_stack (refr : ℕ → ℝ) (xs : List Intersection) (target : ℕ)
    (h : target < xs.length) :
    prepareN1N2 refr xs target [] =
      (topRefr refr (stackAt xs target), topRefr refr (stackAt xs (target + 1))) :=
  prepareN1N2_general refr xs target [] h

/-- The six glass-sphere intersections of the reference scenario
(shape ids `0`, `1`, `2` with refractive indices `1.5`, `2.0`, `2.5`). -/
def gsXs : List Intersection :=
  [⟨2, 0⟩, ⟨2.75, 1⟩, ⟨3.25, 2⟩, ⟨4.75, 1⟩, ⟨5.25, 2⟩, ⟨6, 0⟩]

def gsRefr : ℕ → ℝ := fun oid => if oid = 0 then 1.5 else if oid = 1 then 2 else 2.5

theorem prepare_n1n2_stack_witness :
    3 < gsXs.length ∧
    prepareN1N2 gsRefr gsXs 3 [] =
      (topRefr gsRefr (stackAt gsXs 3), topRefr gsRefr (stackAt gsXs 4)) ∧
    prepareN1N2 gsRefr gsXs 3 [] = (2.5, 2.5) := by
  refine ⟨by simp [gsXs], prepare_n1n2_stack gsRefr gsXs 3 (by simp [gsXs]), ?_⟩
  simp [gsXs, gsRefr, prepareN1N2, containersStep]

/-! ## `plane.rs` -/

/-- `Plane::local_intersect`: a ray whose direction is (nearly) parallel to
the xz-plane — including a coplanar ray — yields no intersection by policy;
otherwise the single root `-origin.y / direction.y`. -/
def plane_local_intersect (ray : Ray) : List ℝ :=
  if |ray.direction.y| < EPSILON then []
  else [-ray.origin.y / ray.direction.y]

/-- C6: `Plane::local_intersect` returns the empty list exactly when the
absolute value of the direction's y component is below epsilon (which covers
a coplanar ray lying in the plane), and otherwise exactly one t-value equal
to `-origin.y / direction.y`. -/
theorem plane_local_intersect_spec (r : Ray) :
    (|r.direction.y| < EPSILON → plane_local_intersect r = []) ∧
    (¬ |r.direction.y| < EPSILON →
      plane_local_intersect r = [-r.origin.y / r.direction.y]) := by
  constructor <;> intro h <;> simp [plane_local_intersect, h]

theorem plane_local_intersect_spec_witness :
    plane_local_intersect ⟨⟨0, 0, 0⟩, ⟨0, 0, 1⟩⟩ = [] ∧
    plane_local_intersect ⟨⟨0, 1, 0⟩, ⟨0, -1, 0⟩⟩ = [-(1 : ℝ) / (-1)] := by
  constructor
  · exact (plane_local_intersect_spec ⟨⟨0, 0, 0⟩, ⟨0, 0, 1⟩⟩).1 (by norm_num [EPSILON])
  · exact (plane_local_intersect_spec ⟨⟨0, 1, 0⟩, ⟨0, -1, 0⟩⟩).2 (by norm_num [EPSILON])

/-! ## `cube.rs`

The slab divisions in `check_axis` rely on IEEE `f64` special values: a zero
direction component produces a signed infinity (or NaN for `0/0`), and Rust's
`f64::max`/`f64::min` ignore a NaN operand while comparisons involving NaN
are false.  `XR` models exactly these values and operations. -/

/-- An `f64` value as produced by the cube slab divisions: finite (real),
a signed infinity, or NaN. -/
inductive XR where
  | nan : XR
  | ninf : XR
  | fin (x : ℝ) : XR
  | pinf : XR

/-- IEEE `<` as used by the cube code: comparisons involving NaN are false. -/
def XR.ltB : XR → XR → Bool
  | .ninf, .fin _ => true
  | .ninf, .pinf => true
  | .fin x, .fin y => decide (x < y)
  | .fin _, .pinf => true
  | _, _ => false

/-- Rust `f64::max`: if one argument is NaN return the other, else the larger. -/
def XR.max (a b : XR) : XR :=
  match a, b with
  | .nan, _ => b
  | _, .nan => a
  | _, _ => if XR.ltB a b then b else a

/-- Rust `f64::min`: if one argument is NaN return the other, else the smaller. -/
def XR.min (a b : XR) : XR :=
  match a, b with
  | .nan, _ => b
  | _, .nan => a
  | _, _ => if XR.ltB b a then b else a

/-- IEEE division of a finite numerator by a finite denominator: division by
zero gives an infinity signed by the numerator, and NaN for `0/0`. -/
def XR.fdiv (num den : ℝ) : XR :=
  if den = 0 then
    if 0 < num then .pinf else if num < 0 then .ninf else .nan
  else .fin (num / den)

/-- `check_axis` of `cube.rs`: the two slab parameters of one axis, swapped
into (tmin, tmax) order when the raw quotients compare the other way. -/
def cube_check_axis (origin direction : ℝ) : XR × XR :=
  let tmin_numerator := -1 - origin
  let tmax_numerator := 1 - origin
  let tmin := XR.fdiv tmin_numerator direction
  let tmax := XR.fdiv tmax_numerator direction
  if XR.ltB tmax tmin then (tmax, tmin) else (tmin, tmax)

/-- `Cube::local_intersect` of `cube.rs`. -/
def cube_local_intersect (ray : Ray) : List XR :=
  let xt := cube_check_axis ray.origin.x ray.direction.x
  let yt := cube_check_axis ray.origin.y ray.direction.y
  let zt := cube_check_axis ray.origin.z ray.direction.z
  let tmin := (xt.1.max yt.1).max zt.1
  let tmax := (xt.2.min yt.2).min zt.2
  if XR.ltB tmax tmin then [] else [tmin, tmax]

/-- Spec-side description: near/far parameters of the two slabs of one axis,
obtained by dividing the slab offsets by the direction component. -/
def slabNearFar (o d : ℝ) : XR × XR :=
  let t1 := XR.fdiv (-1 - o) d
  let t2 := XR.fdiv (1 - o) d
  if XR.ltB t2 t1 then (t2, t1) else (t1, t2)

/-- Spec-side description: the maximum of the three per-axis near values. -/
def cubeNear (ray : Ray) : XR :=
  ((slabNearFar ray.origin.x ray.direction.x).1.max
    (slabNearFar ray.origin.y ray.direction.y).1).max
    (slabNearFar ray.origin.z ray.direction.z).1

/-- Spec-side description: the minimum of the three per-axis far values. -/
def cubeFar (ray : Ray) : XR :=
  ((slabNearFar ray.origin.x ray.direction.x).2.min
    (slabNearFar ray.origin.y ray.direction.y).2).min
    (slabNearFar ray.origin.z ray.direction.z).2

/-- C7: `Cube::local_intersect` computes per axis the slab near/far values
(with zero direction components producing infinities that flow through the
reductions), reduces them to the interval `[max near, min far]`, and returns
the empty list iff near exceeds far, else exactly the two endpoints.  The
two concrete rays exercise an ordinary hit whose y/z slabs are infinite,
and a miss forced by an infinite far value. -/
theorem cube_local_intersect_spec :
    (∀ ray : Ray, cube_local_intersect ray =
      if XR.ltB (cubeFar ray) (cubeNear ray) then []
      else [cubeNear ray, cubeFar ray]) ∧
    cube_local_intersect ⟨⟨5, 0.5, 0⟩, ⟨-1, 0, 0⟩⟩ = [XR.fin 4, XR.fin 6] ∧
    cube_local_intersect ⟨⟨2, 2, 0⟩, ⟨-1, 0, 0⟩⟩ = [] := by
  refine ⟨fun ray => rfl, ?_, ?_⟩
  · norm_num [cube_local_intersect, cube_check_axis, XR.fdiv, XR.ltB, XR.max, XR.min]
  · norm_num [cube_local_intersect, cube_check_axis, XR.fdiv, XR.ltB, XR.max, XR.min]

/-! ## `matrix.rs` / `transform.rs`

The affine transforms of `transform.rs` carry a 3×3 linear part.  The 3×3
inverse follows the cofactor/determinant scheme of `matrix.rs` (the snapshot
spells it out at dimension 4): fail when the determinant is approximately
zero, else transpose the cofactor matrix and divide by the determinant. -/

structure Matrix3 where
  m00 : ℝ
  m01 : ℝ
  m02 : ℝ
  m10 : ℝ
  m11 : ℝ
  m12 : ℝ
  m20 : ℝ
  m21 : ℝ
  m22 : ℝ

def IDENTITY_MATRIX : Matrix3 := ⟨1, 0, 0, 0, 1, 0, 0, 0, 1⟩

/-- Row-by-column matrix product (`impl Mul<&Matrix> for Matrix`). -/
def Matrix3.mulM (a b : Matrix3) : Matrix3 :=
  ⟨a.m00 * b.m00 + a.m01 * b.m10 + a.m02 * b.m20,
   a.m00 * b.m01 + a.m01 * b.m11 + a.m02 * b.m21,
   a.m00 * b.m02 + a.m01 * b.m12 + a.m02 * b.m22,
   a.m10 * b.m00 + a.m11 * b.m10 + a.m12 * b.m20,
   a.m10 * b.m01 + a.m11 * b.m11 + a.m12 * b.m21,
   a.m10 * b.m02 + a.m11 * b.m12 + a.m12 * b.m22,
   a.m20 * b.m00 + a.m21 * b.m10 + a.m22 * b.m20,
   a.m20 * b.m01 + a.m21 * b.m11 + a.m22 * b.m21,
   a.m20 * b.m02 + a.m21 * b.m12 + a.m22 * b.m22⟩

/-- Matrix applied to a vector. -/
def Matrix3.mulV (m : Matrix3) (v : Vector) : Vector :=
  ⟨m.m00 * v.x + m.m01 * v.y + m.m02 * v.z,
   m.m10 * v.x + m.m11 * v.y + m.m12 * v.z,
   m.m20 * v.x + m.m21 * v.y + m.m22 * v.z⟩

/-- Matrix applied to a point. -/
def Matr3mulP (m : Matrix3) (p : Point) : Point :=
  ⟨m.m00 * p.x + m.m01 * p.y + m.m02 * p.z,
   m.m10 * p.x + m.m11 * p.y + m.m12 * p.z,
   m.m20 * p.x + m.m21 * p.y + m.m22 * p.z⟩

def Matrix3.transpose (m : Matrix3) : Matrix3 :=
  ⟨m.m00, m.m10, m.m20, m.m01, m.m11, m.m21, m.m02, m.m12, m.m22⟩

/-- Determinant by cofactor expansion along the first row (`matrix.rs`). -/
def Matrix3.det (m : Matrix3) : ℝ :=
  m.m00 * (m.m11 * m.m22 - m.m21 * m.m12)
    + m.m01 * (-(m.m10 * m.m22 - m.m20 * m.m12))
    + m.m02 * (m.m10 * m.m21 - m.m20 * m.m11)

/-- `Matrix::inverse` at dimension 3: `None` when the determinant is
approximately zero (`det.approx_eq(&0.0)`), else entry `[j][i]` is
`cofactor(i, j) / det`. -/
def Matrix3.inverse (m : Matrix3) : Option Matrix3 :=
  let det := m.det
  if |det| < EPSILON then none
  else some
    ⟨(m.m11 * m.m22 - m.m21 * m.m12) / det,
     (-(m.m01 * m.m22 - m.m21 * m.m02)) / det,
     (m.m01 * m.m12 - m.m11 * m.m02) / det,
     (-(m.m10 * m.m22 - m.m20 * m.m12)) / det,
     (m.m00 * m.m22 - m.m20 * m.m02) / det,
     (-(m.m00 * m.m12 - m.m10 * m.m02)) / det,
     (m.m10 * m.m21 - m.m20 * m.m11) / det,
     (-(m.m00 * m.m21 - m.m20 * m.m01)) / det,
     (m.m00 * m.m11 - m.m10 * m.m01) / det⟩

instance : Add Vector := ⟨fun a b => ⟨a.x + b.x, a.y + b.y, a.z + b.z⟩⟩

/-- An affine transform (`transform.rs`): linear part plus translation. -/
structure Affine where
  transform : Matrix3
  translate : Vector

def IDENTITY_AFFINE : Affine := ⟨IDENTITY_MATRIX, ⟨0, 0, 0⟩⟩

def Affine.get_transform (a : Affine) : Matrix3 := a.transform

/-- `impl Mul<&Point> for &Affine`: `transform * point + translate`. -/
instance : HMul Affine Point Point :=
  ⟨fun a p => Matr3mulP a.transform p + a.translate⟩

/-- `impl Mul<&Vector> for &Affine`: translation does not act on vectors. -/
instance : HMul Affine Vector Vector := ⟨fun a v => a.transform.mulV v⟩

/-- `impl Mul<&Affine> for &Affine` (composition). -/
instance : Mul Affine :=
  ⟨fun x y => ⟨x.transform.mulM y.transform, x.transform.mulV y.translate + x.translate⟩⟩

/-- `Affine::inverse` (`transform.rs`): invert the linear part and negate the
transformed translation; fails exactly when the linear part fails to invert. -/
def Affine.inverse (a : Affine) : Option Affine :=
  a.transform.inverse.map fun inv_trans => ⟨inv_trans, -(inv_trans.mulV a.translate)⟩

/-- `Ray::transform` (`ray.rs`). -/
def Ray.transform (r : Ray) (trans : Affine) : Ray :=
  ⟨trans * r.origin, trans * r.direction⟩

lemma vec_neg (v : Vector) : -v = ⟨-v.x, -v.y, -v.z⟩ := rfl

lemma vec_add (a b : Vector) : a + b = ⟨a.x + b.x, a.y + b.y, a.z + b.z⟩ := rfl

lemma affine_mul (x y : Affine) :
    x * y = ⟨x.transform.mulM y.transform, x.transform.mulV y.translate + x.translate⟩ := rfl

lemma matrix3_inverse_mul (m mi : Matrix3) (h : m.inverse = some mi) :
    m.det ≠ 0 ∧ m.mulM mi = IDENTITY_MATRIX ∧ mi.mulM m = IDENTITY_MATRIX := by
  obtain ⟨a, b, c, d, e, f, g, p, q⟩ := m
  dsimp only [Matrix3.inverse, Matrix3.det] at h ⊢
  set D := a * (e * q - p * f) + b * -(d * q - g * f) + c * (d * p - g * e) with hD
  by_cases hd : |D| < EPSILON
  · rw [if_pos hd] at h; exact absurd h (by simp)
  · rw [if_neg hd] at h
    have hdet : D ≠ 0 := by
      intro h0
      exact hd (by rw [h0]; norm_num [EPSILON])
    obtain rfl := Option.some_inj.mp h
    refine ⟨hdet, ?_, ?_⟩
    · dsimp only [Matrix3.mulM]
      rw [IDENTITY_MATRIX, Matrix3.mk.injEq]
      refine ⟨?_, ?_, ?_, ?_, ?_, ?_, ?_, ?_, ?_⟩ <;> (field_simp; (try rw [hD]); ring)
    · dsimp only [Matrix3.mulM]
      rw [IDENTITY_MATRIX, Matrix3.mk.injEq]
      refine ⟨?_, ?_, ?_, ?_, ?_, ?_, ?_, ?_, ?_⟩ <;> (field_simp; (try rw [hD]); ring)

lemma affine_inverse_mul (a ai : Affine) (h : a.inverse = some ai) :
    ai * a = IDENTITY_AFFINE ∧ a * ai = IDENTITY_AFFINE := by
  obtain ⟨T, t⟩ := a
  unfold Affine.inverse at h
  dsimp only at h
  cases hm : T.inverse with
  | none => rw [hm] at h; exact absurd h (by simp)
  | some mi =>
    rw [hm] at h
    obtain ⟨hdet, hmi1, hmi2⟩ := matrix3_inverse_mul T mi hm
    have hai : ai = ⟨mi, -(mi.mulV t)⟩ := (Option.some_inj.mp h).symm
    subst hai
    constructor
    · rw [affine_mul]
      dsimp only
      rw [hmi2]
      simp only [IDENTITY_AFFINE, Affine.mk.injEq, true_and]
      obtain ⟨vx, vy, vz⟩ : Vector := mi.mulV t
      rw [vec_neg, vec_add]
      simp [Vector.mk.injEq]
    · rw [affine_mul]
      dsimp only
      simp only [IDENTITY_AFFINE, Affine.mk.injEq]
      refine ⟨hmi1, ?_⟩
      obtain ⟨A, B, C, D, E, F, G, P, Q⟩ := T
      obtain ⟨a0, a1, a2, a3, a4, a5, a6, a7, a8⟩ := mi
      obtain ⟨tx, ty, tz⟩ := t
      simp only [Matrix3.mulM, IDENTITY_MATRIX, Matrix3.mk.injEq] at hmi1
      obtain ⟨e1, e2, e3, e4, e5, e6, e7, e8, e9⟩ := hmi1
      simp only [Matrix3.mulV, vec_neg, vec_add, Vector.mk.injEq]
      refine ⟨?_, ?_, ?_⟩
      · linear_combination (-tx) * e1 + (-ty) * e2 + (-tz) * e3
      · linear_combination (-tx) * e4 + (-ty) * e5 + (-tz) * e6
      · linear_combination (-tx) * e7 + (-ty) * e8 + (-tz) * e9

/-! ## `light.rs` / `pattern.rs` / `material.rs` -/

/-- A point light (`light.rs`): position and intensity. -/
structure PointLight where
  position : Point
  intensity : Color

/-- Modelled from the spec: `PointLight::combine` — `effective = light.intensity * color`
(componentwise); the accessor is not part of the snapshot's `light.rs`. -/
def PointLight.combine (l : PointLight) (c : Color) : Color := l.intensity * c

/-- Modelled from the spec: `PointLight::vector_from` — the vector from the
point to the light position (`light.position − point`). -/
def PointLight.vector_from (l : PointLight) (p : Point) : Vector := l.position - p

/-- Modelled from the spec: `PointLight::scale_intensity` — the intensity
scaled by a scalar (`specular = light.intensity * material.specular * cosα^shininess`). -/
def PointLight.scale_intensity (l : PointLight) (s : ℝ) : Color := l.intensity * s

/-- `PatternWrap` of `material.rs`: a solid color, or a pattern (a color
function of a point, standing for the `dyn Pattern` trait object) paired
with the pattern's inverse transform. -/
inductive PatternWrap where
  | Solid (c : Color)
  | Custom (getter : Point → Color) (inverse_transform : Affine)

/-- `Material` (`material.rs`), extended with the optical coefficients
(reflective, transparency, refractive index) which the spec lists for the
material but which the snapshot's `material.rs` predates. -/
structure Material where
  color : PatternWrap
  ambient : ℝ
  diffuse : ℝ
  specular : ℝ
  shininess : ℝ
  reflective : ℝ
  transparency : ℝ
  refractive_index : ℝ

/-- `DEFAULT_MATERIAL` of `material.rs`; the optical coefficients are
modelled from the spec (no reflection, no transparency, vacuum index). -/
def DEFAULT_MATERIAL : Material := ⟨.Solid WHITE, 0.1, 0.9, 0.9, 200, 0, 0, 1⟩

/-- Modelled from the spec: `Material::is_reflective` — the reflective
coefficient is nonzero ("if material reflective coefficient is 0 …"). -/
def Material.is_reflective (m : Material) : Prop := m.reflective ≠ 0

/-- Modelled from the spec: `Material::is_transparent` — nonzero transparency. -/
def Material.is_transparent (m : Material) : Prop := m.transparency ≠ 0

instance (m : Material) : Decidable m.is_reflective :=
  inferInstanceAs (Decidable (m.reflective ≠ 0))

instance (m : Material) : Decidable m.is_transparent :=
  inferInstanceAs (Decidable (m.transparency ≠ 0))

def Material.get_refractive_index (m : Material) : ℝ := m.refractive_index

/-- Modelled from the spec: `Material::reflected_color` scales a color by the
reflective coefficient ("scale the result by the reflective coefficient"). -/
def Material.reflected_color (m : Material) (c : Color) : Color := c * m.reflective

/-- Modelled from the spec: `Material::scale_transparency` scales a color by
the transparency ("scale by transparency"). -/
def Material.scale_transparency (m : Material) (c : Color) : Color := c * m.transparency

/-- The surface-color resolution step of `Material::lighting` (`material.rs`):
solid color, or the pattern evaluated at the point mapped through the shape
inverse transform and then the pattern inverse transform. -/
def Material.resolveColor (m : Material) (shape_inv_transform : Affine) (point : Point) : Color :=
  match m.color with
  | .Solid c => c
  | .Custom getter pattern_inv_trans => getter (pattern_inv_trans * (shape_inv_transform * point))

/-- `Material::lighting` (`material.rs`): ambient always, with an early
return of the ambient term alone when `in_shadow`; the diffuse and specular
contributions are black when the light is behind the surface, and specular
additionally when the reflection points away from the eye. -/
def Material.lighting (m : Material) (light : PointLight) (shape_inv_transform : Affine)
    (point : Point) (eyev normalv : Vector) (in_shadow : Bool) : Color :=
  let color := m.resolveColor shape_inv_transform point
  let effective_color := light.combine color
  let ambient := effective_color * m.ambient
  if in_shadow then ambient
  else
    let lightv := (light.vector_from point).normalize
    let light_dot_normal := lightv.dot normalv
    if light_dot_normal < 0 then ambient + BLACK + BLACK
    else
      let diffuse := effective_color * m.diffuse * light_dot_normal
      let reflectv := reflect (-lightv) normalv
      let reflect_dot_eye := reflectv.dot eyev
      if reflect_dot_eye ≤ 0 then ambient + diffuse + BLACK
      else
        let specular := light.scale_intensity (m.specular * Real.rpow reflect_dot_eye m.shininess)
        ambient + diffuse + specular

/-- C8: with the shadow flag set, `Material::lighting` returns exactly the
ambient term — the resolved surface color combined componentwise with the
light intensity, scaled by the ambient coefficient — with no diffuse or
specular contribution, for every material, light, point, eye and normal. -/
theorem lighting_shadow_ambient (m : Material) (light : PointLight) (shape_inv : Affine)
    (point : Point) (eyev normalv : Vector) :
    m.lighting light shape_inv point eyev normalv true =
      light.combine (m.resolveColor shape_inv point) * m.ambient := rfl

/-! ## `world.rs`: `Computations` and `schlick` -/

/-- The computed hit state (`world.rs`). -/
structure Computations where
  object_id : ℕ
  over_point : Point
  under_point : Point
  eyev : Vector
  normalv : Vector
  reflectv : Vector
  n1 : ℝ
  n2 : ℝ

/-- `Computations::schlick` (`world.rs`): the early `return 1.0` and the
mutation of `cos` are translated by branching into the shared tail. -/
def Computations.schlick (c : Computations) : ℝ :=
  let cos := c.eyev.dot c.normalv
  let tail : ℝ → ℝ := fun cosv =>
    let r0 := ((c.n1 - c.n2) / (c.n1 + c.n2)) ^ 2
    r0 + (1 - r0) * (1 - cosv) ^ 5
  if c.n2 < c.n1 then
    let n := c.n1 / c.n2
    let sin2_t := n * n * (1 - cos * cos)
    if 1 < sin2_t then 1
    else tail (Real.sqrt (1 - sin2_t))
  else tail cos

/-- Spec-side description of the Schlick approximation: reflectance `1.0`
beyond the critical angle when `n1 > n2`, otherwise
`r0 + (1 − r0)·(1 − cosθ)⁵` with `r0 = ((n1 − n2)/(n1 + n2))²`, where `cosθ`
is the eye–normal cosine except that the transmission-angle cosine is used
when `n1 > n2`. -/
def schlickSpec (c : Computations) : ℝ :=
  let cosEye := c.eyev.dot c.normalv
  let sin2_t := c.n1 / c.n2 * (c.n1 / c.n2) * (1 - cosEye * cosEye)
  if c.n2 < c.n1 ∧ 1 < sin2_t then 1
  else
    let cosTheta := if c.n2 < c.n1 then Real.sqrt (1 - sin2_t) else cosEye
    let r0 := ((c.n1 - c.n2) / (c.n1 + c.n2)) ^ 2
    r0 + (1 - r0) * (1 - cosTheta) ^ 5

/-- C4: `Computations::schlick` computes exactly the two-branch Schlick
formula of the specification. -/
theorem schlick_formula (c : Computations) : c.schlick = schlickSpec c := by
  unfold Computations.schlick schlickSpec
  by_cases h1 : c.n2 < c.n1
  · simp only [if_pos h1]
    by_cases h2 : 1 < c.n1 / c.n2 * (c.n1 / c.n2) * (1 - c.eyev.dot c.normalv * (c.eyev.dot c.normalv))
    · simp [h1, h2]
    · simp [h1, h2]
  · simp [h1]

/-! ## `shape.rs` -/

/-- The `LocalShape` capability interface of `shape.rs`: the two local-frame
operations of a shape kind (standing for the `dyn LocalShape` trait object). -/
structure LocalShape where
  local_intersect : Ray → List ℝ
  local_normal_at : Point → Vector

/-- `Shape` (`shape.rs`): inverse transform, material, wrapped local shape. -/
structure Shape where
  inverse_transform : Affine
  material : Material
  local_shape : LocalShape

def Shape.new (local_shape : LocalShape) : Shape :=
  ⟨IDENTITY_AFFINE, DEFAULT_MATERIAL, local_shape⟩

/-- `Shape::set_transform`: stores `transform.inverse().unwrap()` — the
`unwrap` panic on a singular transform is modelled by `none`. -/
def Shape.set_transform (s : Shape) (transform : Affine) : Option Shape :=
  transform.inverse.map fun inv => { s with inverse_transform := inv }

def Shape.set_material (s : Shape) (material : Material) : Shape := { s with material }

def Shape.get_material (s : Shape) : Material := s.material

def Shape.get_inverse_transform (s : Shape) : Affine := s.inverse_transform

/-- `Shape::intersect`: transform the world ray into local space by the
stored inverse transform and delegate to the local shape. -/
def Shape.intersect (s : Shape) (ray : Ray) : List ℝ :=
  s.local_shape.local_intersect (ray.transform s.inverse_transform)

/-- `Shape::normal_at` (`shape.rs`). -/
def Shape.normal_at (s : Shape) (point : Point) : Vector :=
  let local_point := s.inverse_transform * point
  let local_normal := s.local_shape.local_normal_at local_point
  let world_normal := (s.inverse_transform.get_transform.transpose).mulV local_normal
  world_normal.normalize

/-- C9: supplying a singular affine transform to `Shape::set_transform`
fails at construction time (the modelled `unwrap` panic) and never produces
a `Shape`; every successfully constructed shape stores the true inverse of
the supplied transform — composition in either order is the identity affine
map — so no singular-transform failure can arise later during per-ray
intersection or normal evaluation. -/
theorem set_transform_inverse (s0 : Shape) (t : Affine) :
    (t.transform.det = 0 → s0.set_transform t = none) ∧
    (∀ s, s0.set_transform t = some s →
      s.inverse_transform * t = IDENTITY_AFFINE ∧ t * s.inverse_transform = IDENTITY_AFFINE) := by
  constructor
  · intro hdet
    have hnone : t.transform.inverse = none := by
      unfold Matrix3.inverse
      rw [hdet]
      norm_num [EPSILON]
    simp [Shape.set_transform, Affine.inverse, hnone]
  · intro s hs
    unfold Shape.set_transform at hs
    cases hinv : t.inverse with
    | none => rw [hinv] at hs; exact absurd hs (by simp)
    | some ti =>
      rw [hinv] at hs
      have hset : s = { s0 with inverse_transform := ti } := (Option.some_inj.mp hs).symm
      subst hset
      exact affine_inverse_mul t ti hinv

/-- A stand-in local shape for constructing concrete `Shape` values. -/
def dummyLocal : LocalShape := ⟨fun _ => [], fun _ => ⟨0, 1, 0⟩⟩

/-- A concrete invertible affine transform: uniform scaling by 2 with a
translation. -/
def scale2 : Affine := ⟨⟨2, 0, 0, 0, 2, 0, 0, 0, 2⟩, ⟨1, 2, 3⟩⟩

theorem set_transform_inverse_witness :
    (Shape.new dummyLocal).set_transform ⟨⟨0, 0, 0, 0, 0, 0, 0, 0, 0⟩, ⟨0, 0, 0⟩⟩ = none ∧
    ∃ s, (Shape.new dummyLocal).set_transform scale2 = some s ∧
      s.inverse_transform * scale2 = IDENTITY_AFFINE ∧
      scale2 * s.inverse_transform = IDENTITY_AFFINE := by
  constructor
  · exact (set_transform_inverse _ _).1 (by norm_num [Matrix3.det])
  · have h : (Shape.new dummyLocal).set_transform scale2 =
        some ⟨⟨⟨1/2, 0, 0, 0, 1/2, 0, 0, 0, 1/2⟩, ⟨-(1/2), -1, -(3/2)⟩⟩,
          DEFAULT_MATERIAL, dummyLocal⟩ := by
      simp only [Shape.set_transform, Shape.new, Affine.inverse, Matrix3.inverse,
        Matrix3.det, scale2]
      norm_num [EPSILON, Matrix3.mulV, vec_neg]
    exact ⟨_, h, (set_transform_inverse _ _).2 _ h⟩

/-! ## `world.rs`: the world and the recursive shading pipeline -/

/-- `World` (`world.rs`): lights, shapes, and the shadow toggle. -/
structure World where
  lights : List PointLight
  shapes : List Shape
  handle_shadows : Bool

/-- `World::new()`. -/
def World.new : World := ⟨[], [], true⟩

/-- Stand-in shape for the (panicking) out-of-range accesses
`self.shapes[id]`; inside the pipeline ids are always in range. -/
def defaultShape : Shape := Shape.new dummyLocal

/-- `self.shapes[oid]`. -/
def World.shapeAt (w : World) (oid : ℕ) : Shape := w.shapes.getD oid defaultShape

/-- `World::intersect` (`world.rs`): each shape in index order contributes
its t-values tagged with the shape index; the `Intersections::new`
constructor sorts ascending by `t` (modelled from the spec §4.4 — that
sorting constructor postdates the snapshot's `intersection.rs`). -/
def World.intersect (w : World) (ray : Ray) : List Intersection :=
  (w.shapes.enum.flatMap fun io =>
    ((io.2.intersect ray).map fun t => Intersection.mk t io.1)).mergeSort
    fun a b => decide (a.t ≤ b.t)

/-- Modelled from the spec §4.4: `Intersections::hit_index` — the index of
the first entry with `t ≥ 0` in the sorted list, if any. -/
def hit_index (xs : List Intersection) : Option ℕ :=
  xs.findIdx? fun i => decide (0 ≤ i.t)

/-- `World::prepare_computations` (`world.rs`): geometry of the hit plus the
refractive pair computed by the container-stack loop `prepareN1N2`. -/
def World.prepare_computations (w : World) (xs : List Intersection)
    (intersection_index : ℕ) (ray : Ray) : Computations :=
  let intersection := xs.getD intersection_index ⟨0, 0⟩
  let point := ray.position intersection.t
  let eyev := -ray.direction
  let nv := (w.shapeAt intersection.object_id).normal_at point
  let inside : Bool := decide (nv.dot eyev < 0)
  let normalv := if inside then -nv else nv
  let reflectv := reflect ray.direction normalv
  let over_point := point + normalv * EPSILON
  let under_point := point - normalv * EPSILON
  let n1n2 := prepareN1N2
    (fun oid => (w.shapeAt oid).get_material.get_refractive_index) xs intersection_index []
  ⟨intersection.object_id, over_point, under_point, eyev, normalv, reflectv, n1n2.1, n1n2.2⟩

/-- `World::is_shadowed` (`world.rs`). -/
def World.is_shadowed (w : World) (light : PointLight) (point : Point) : Bool :=
  let v := light.vector_from point
  let distance := v.magnitude
  let direction := v.normalize
  let r : Ray := ⟨point, direction⟩
  let xs := w.intersect r
  match hit_index xs with
  | some intersection_index => decide ((xs.getD intersection_index ⟨0, 0⟩).t < distance)
  | none => false

mutual

/-- `World::color_at` (`world.rs`). -/
def World.color_at (w : World) (ray : Ray) (remaining : ℤ) : Color :=
  let xs := w.intersect ray
  match hit_index xs with
  | some intersection_index =>
    w.shade_hit (w.prepare_computations xs intersection_index ray) remaining
  | none => BLACK
termination_by (remaining.toNat, 2)
decreasing_by
  exact Prod.Lex.right _ (by omega)

/-- `World::shade_hit` (`world.rs`). -/
def World.shade_hit (w : World) (comps : Computations) (remaining : ℤ) : Color :=
  let shape := w.shapeAt comps.object_id
  let material := shape.get_material
  let surface := w.lights.foldl
    (fun surface light =>
      let shadowed := w.handle_shadows && w.is_shadowed light comps.over_point
      surface + material.lighting light shape.get_inverse_transform comps.over_point
        comps.eyev comps.normalv shadowed)
    BLACK
  let reflected := w.reflected_color comps remaining
  let refracted := w.refracted_color comps remaining
  if material.is_reflective ∧ material.is_transparent then
    let reflectance := comps.schlick
    surface + reflected * reflectance + refracted * (1 - reflectance)
  else
    surface + reflected + refracted
termination_by (remaining.toNat, 1)
decreasing_by
  · exact Prod.Lex.right _ (by omega)
  · exact Prod.Lex.right _ (by omega)

/-- `World::reflected_color` (`world.rs`). -/
def World.reflected_color (w : World) (comps : Computations) (remaining : ℤ) : Color :=
  let material := (w.shapeAt comps.object_id).get_material
  if ¬ material.is_reflective ∨ remaining ≤ 0 then BLACK
  else
    let reflect_ray : Ray := ⟨comps.over_point, comps.reflectv⟩
    let color := w.color_at reflect_ray (remaining - 1)
    material.reflected_color color
termination_by (remaining.toNat, 0)
decreasing_by
  apply Prod.Lex.left
  push_neg at *
  omega

/-- `World::refracted_color` (`world.rs`). -/
def World.refracted_color (w : World) (comps : Computations) (remaining : ℤ) : Color :=
  let material := (w.shapeAt comps.object_id).get_material
  if ¬ material.is_transparent ∨ remaining ≤ 0 then BLACK
  else
    let n_ratio := comps.n1 / comps.n2
    let cos_i := comps.eyev.dot comps.normalv
    let sin2_t := n_ratio * n_ratio * (1 - cos_i * cos_i)
    if 1 < sin2_t then BLACK
    else
      let cos_t := Real.sqrt (1 - sin2_t)
      let direction := (n_ratio * cos_i - cos_t) * comps.normalv - n_ratio * comps.eyev
      let refract_ray : Ray := ⟨comps.under_point, direction⟩
      material.scale_transparency (w.color_at refract_ray (remaining - 1))
termination_by (remaining.toNat, 0)
decreasing_by
  apply Prod.Lex.left
  push_neg at *
  omega

end

mutual

/-- Call-stack-bounded variant of `color_at`: `fuel` is spent only on the
recursive reflection/refraction calls; `none` means the bound was reached. -/
def World.colorAtF (w : World) (fuel : ℕ) (ray : Ray) (remaining : ℤ) : Option Color :=
  let xs := w.intersect ray
  match hit_index xs with
  | some intersection_index =>
    w.shadeHitF fuel (w.prepare_computations xs intersection_index ray) remaining
  | none => some BLACK
termination_by (fuel, 2)
decreasing_by
  exact Prod.Lex.right _ (by omega)

/-- Call-stack-bounded variant of `shade_hit`. -/
def World.shadeHitF (w : World) (fuel : ℕ) (comps : Computations) (remaining : ℤ) :
    Option Color :=
  let shape := w.shapeAt comps.object_id
  let material := shape.get_material
  let surface := w.lights.foldl
    (fun surface light =>
      let shadowed := w.handle_shadows && w.is_shadowed light comps.over_point
      surface + material.lighting light shape.get_inverse_transform comps.over_point
        comps.eyev comps.normalv shadowed)
    BLACK
  match w.reflectedColorF fuel comps remaining, w.refractedColorF fuel comps remaining with
  | some reflected, some refracted =>
    if material.is_reflective ∧ material.is_transparent then
      let reflectance := comps.schlick
      some (surface + reflected * reflectance + refracted * (1 - reflectance))
    else
      some (surface + reflected + refracted)
  | _, _ => none
termination_by (fuel, 1)
decreasing_by
  · exact Prod.Lex.right _ (by omega)
  · exact Prod.Lex.right _ (by omega)

/-- Call-stack-bounded variant of `reflected_color`. -/
def World.reflectedColorF (w : World) (fuel : ℕ) (comps : Computations) (remaining : ℤ) :
    Option Color :=
  let material := (w.shapeAt comps.object_id).get_material
  if ¬ material.is_reflective ∨ remaining ≤ 0 then some BLACK
  else
    match fuel with
    | 0 => none
    | fuel' + 1 =>
      (w.colorAtF fuel' ⟨comps.over_point, comps.reflectv⟩ (remaining - 1)).map
        fun color => material.reflected_color color
termination_by (fuel, 0)
decreasing_by
  apply Prod.Lex.left
  omega

/-- Call-stack-bounded variant of `refracted_color`. -/
def World.refractedColorF (w : World) (fuel : ℕ) (comps : Computations) (remaining : ℤ) :
    Option Color :=
  let material := (w.shapeAt comps.object_id).get_material
  if ¬ material.is_transparent ∨ remaining ≤ 0 then some BLACK
  else
    let n_ratio := comps.n1 / comps.n2
    let cos_i := comps.eyev.dot comps.normalv
    let sin2_t := n_ratio * n_ratio * (1 - cos_i * cos_i)
    if 1 < sin2_t then some BLACK
    else
      match fuel with
      | 0 => none
      | fuel' + 1 =>
        let cos_t := Real.sqrt (1 - sin2_t)
        let direction := (n_ratio * cos_i - cos_t) * comps.normalv - n_ratio * comps.eyev
        (w.colorAtF fuel' ⟨comps.under_point, direction⟩ (remaining - 1)).map
          fun color => material.scale_transparency color
termination_by (fuel, 0)
decreasing_by
  apply Prod.Lex.left
  omega

end

lemma fuel_equiv (w : World) (fuel : ℕ) :
    (∀ ray remaining, remaining.toNat ≤ fuel →
      w.colorAtF fuel ray remaining = some (w.color_at ray remaining)) ∧
    (∀ comps remaining, remaining.toNat ≤ fuel →
      w.shadeHitF fuel comps remaining = some (w.shade_hit comps remaining)) ∧
    (∀ comps remaining, remaining.toNat ≤ fuel →
      w.reflectedColorF fuel comps remaining = some (w.reflected_color comps remaining)) ∧
    (∀ comps remaining, remaining.toNat ≤ fuel →
      w.refractedColorF fuel comps remaining = some (w.refracted_color comps remaining)) := by
  induction fuel with
  | zero =>
    have hrefl : ∀ comps remaining, remaining.toNat ≤ 0 →
        w.reflectedColorF 0 comps remaining = some (w.reflected_color comps remaining) := by
      intro comps remaining h
      have hr : remaining ≤ 0 := by omega
      unfold World.reflectedColorF World.reflected_color
      rw [if_pos (Or.inr hr), if_pos (Or.inr hr)]
    have hrefr : ∀ comps remaining, remaining.toNat ≤ 0 →
        w.refractedColorF 0 comps remaining = some (w.refracted_color comps remaining) := by
      intro comps remaining h
      have hr : remaining ≤ 0 := by omega
      unfold World.refractedColorF World.refracted_color
      rw [if_pos (Or.inr hr), if_pos (Or.inr hr)]
    have hshade : ∀ comps remaining, remaining.toNat ≤ 0 →
        w.shadeHitF 0 comps remaining = some (w.shade_hit comps remaining) := by
      intro comps remaining h
      unfold World.shadeHitF World.shade_hit
      rw [hrefl comps remaining h, hrefr comps remaining h]
      dsimp only
      split_ifs <;> rfl
    refine ⟨?_, hshade, hrefl, hrefr⟩
    intro ray remaining h
    unfold World.colorAtF World.color_at
    dsimp only
    cases hx : hit_index (w.intersect ray) with
    | some intersection_index => exact hshade _ remaining h
    | none => rfl
  | succ n ih =>
    have hrefl : ∀ comps remaining, remaining.toNat ≤ n + 1 →
        w.reflectedColorF (n + 1) comps remaining
          = some (w.reflected_color comps remaining) := by
      intro comps remaining h
      unfold World.reflectedColorF World.reflected_color
      by_cases hc : ¬ (w.shapeAt comps.object_id).get_material.is_reflective ∨ remaining ≤ 0
      · rw [if_pos hc, if_pos hc]
      · rw [if_neg hc, if_neg hc]
        have hrem : 0 < remaining := by
          rcases not_or.mp hc with ⟨-, h2⟩
          omega
        dsimp only
        rw [ih.1 _ (remaining - 1) (by omega)]
        rfl
    have hrefr : ∀ comps remaining, remaining.toNat ≤ n + 1 →
        w.refractedColorF (n + 1) comps remaining
          = some (w.refracted_color comps remaining) := by
      intro comps remaining h
      unfold World.refractedColorF World.refracted_color
      by_cases hc : ¬ (w.shapeAt comps.object_id).get_material.is_transparent ∨ remaining ≤ 0
      · rw [if_pos hc, if_pos hc]
      · rw [if_neg hc, if_neg hc]
        have hrem : 0 < remaining := by
          rcases not_or.mp hc with ⟨-, h2⟩
          omega
        by_cases hs : 1 < comps.n1 / comps.n2 * (comps.n1 / comps.n2)
            * (1 - comps.eyev.dot comps.normalv * (comps.eyev.dot comps.normalv))
        · rw [if_pos hs, if_pos hs]
        · rw [if_neg hs, if_neg hs]
          dsimp only
          rw [ih.1 _ (remaining - 1) (by omega)]
          rfl
    have hshade : ∀ comps remaining, remaining.toNat ≤ n + 1 →
        w.shadeHitF (n + 1) comps remaining = some (w.shade_hit comps remaining) := by
      intro comps remaining h
      unfold World.shadeHitF World.shade_hit
      rw [hrefl comps remaining h, hrefr comps remaining h]
      dsimp only
      split_ifs <;> rfl
    refine ⟨?_, hshade, hrefl, hrefr⟩
    intro ray remaining h
    unfold World.colorAtF World.color_at
    dsimp only
    cases hx : hit_index (w.intersect ray) with
    | some intersection_index => exact hshade _ remaining h
    | none => rfl

/-- C10: `color_at` terminates for every world, ray and integer budget,
zero and negative budgets included: the recursive calls made through
`reflected_color`/`refracted_color` pass `remaining - 1` and both return
black without recursing once `remaining ≤ 0`, so exploring the call tree
with a stack budget of `max(remaining, 0)` (the fuel of `colorAtF`) already
reproduces the total function's value. -/
theorem color_at_depth_bound (w : World) (fuel : ℕ) (ray : Ray) (remaining : ℤ)
    (h : remaining.toNat ≤ fuel) :
    w.colorAtF fuel ray remaining = some (w.color_at ray remaining) :=
  (fuel_equiv w fuel).1 ray remaining h

theorem color_at_depth_bound_witness :
    (Int.toNat (-3) ≤ 0) ∧
    World.new.colorAtF 0 ⟨⟨0, 0, 0⟩, ⟨0, 0, 1⟩⟩ (-3)
      = some (World.new.color_at ⟨⟨0, 0, 0⟩, ⟨0, 0, 1⟩⟩ (-3)) :=
  ⟨by decide, color_at_depth_bound World.new 0 ⟨⟨0, 0, 0⟩, ⟨0, 0, 1⟩⟩ (-3) (by decide)⟩

/-- C3: `reflected_color` returns black whenever the material's reflective
coefficient is zero or the remaining depth is `≤ 0`, and `refracted_color`
returns black whenever the transparency is zero or the remaining depth is
`≤ 0` — in particular both always return black at `remaining = 0`. -/
theorem reflected_refracted_black (w : World) (comps : Computations) (remaining : ℤ) :
    (((w.shapeAt comps.object_id).get_material.reflective = 0 ∨ remaining ≤ 0) →
      w.reflected_color comps remaining = BLACK) ∧
    (((w.shapeAt comps.object_id).get_material.transparency = 0 ∨ remaining ≤ 0) →
      w.refracted_color comps remaining = BLACK) := by
  constructor
  · intro h
    have hc : ¬ (w.shapeAt comps.object_id).get_material.is_reflective ∨ remaining ≤ 0 := by
      rcases h with h | h
      · exact Or.inl (by simp [Material.is_reflective, h])
      · exact Or.inr h
    unfold World.reflected_color
    rw [if_pos hc]
  · intro h
    have hc : ¬ (w.shapeAt comps.object_id).get_material.is_transparent ∨ remaining ≤ 0 := by
      rcases h with h | h
      · exact Or.inl (by simp [Material.is_transparent, h])
      · exact Or.inr h
    unfold World.refracted_color
    rw [if_pos hc]

/-- A concrete computed hit state. -/
def dummyComps : Computations :=
  ⟨0, ⟨0, 0, 0⟩, ⟨0, 0, 0⟩, ⟨0, 0, 1⟩, ⟨0, 0, 1⟩, ⟨0, 0, 1⟩, 1, 1⟩

theorem reflected_refracted_black_witness :
    World.new.reflected_color dummyComps 0 = BLACK ∧
    World.new.refracted_color dummyComps 0 = BLACK :=
  ⟨(reflected_refracted_black World.new dummyComps 0).1 (Or.inr (by norm_num)),
   (reflected_refracted_black World.new dummyComps 0).2 (Or.inr (by norm_num))⟩

end

end RTC
